import Mathlib

/-!
Shallow embedding of the Airbyte Hive destination connector
(`destination_hive/destination.py`): connection establishment, the
connection `check` operation, and the `write` sync orchestrator
(prepare tables, drain messages, final flush).

The buffered writer built by `create_hive_writer` lives in a module that
is not part of the sources at hand; its operations (`delete_table`,
`create_raw_table`, `queue_write_data`, `flush`) are modelled from the
specification (per-stream in-memory buffers, bulk insert on crossing a
configurable row-count threshold or on the final no-argument flush).

Nondeterministic effects are modelled as explicit parameters:
`Env` says whether the driver connect and SQL execution succeed,
`ids`/`times` are the supplies behind `uuid4()`/`datetime.now()`
(indexed by an ingestion counter), and `dumps` stands for `json.dumps`.
-/

namespace DestinationHive

/-- Kinds of Python exceptions relevant to this connector. -/
inductive PyErr
  | connectionError
  | configurationError
  | writeError
  | noneContext
  deriving DecidableEq, Repr

/-- The destination configuration (`config` JSON object). `authPresent`
distinguishes a missing `auth_type` key (whose read raises `KeyError`)
from a present falsy value (empty string). -/
structure Config where
  authPresent : Bool
  auth_type : String
  host : String
  port : Nat
  user : String
  password : String
  use_http_transport : Bool
  use_ssl : Bool
  http_path : String
  deriving DecidableEq, Repr

/-- Driver environment: whether the driver-level connect succeeds and
whether SQL execution (DDL, queries, bulk inserts) succeeds. -/
structure Env where
  connectOk : Bool
  execOk : Bool
  deriving DecidableEq, Repr

/-- A live HiveServer2 session, tagged with the connect variant used. -/
inductive Session
  | plain (host : String) (port : Nat)
  | ldap (host : String) (port : Nat) (user password : String)
      (useHttp useSsl : Bool) (httpPath : String)
  deriving DecidableEq, Repr

/-- Python's `str.upper()`, modelled character-wise (the values compared
here are ASCII). -/
def pyUpper (s : String) : String :=
  ⟨s.data.map Char.toUpper⟩

/-- `establish_connection(config, logger)`. The whole body sits in a
`try`/`except Exception` that only logs, so no exception ever escapes:
the result is always `Except.ok` carrying `some` connection or `none`
(the initial `hive_conn = None`). An unrecognized `auth_type` falls
through both branches without connecting; a missing `auth_type` key
raises `KeyError`, which the `except` swallows. -/
def establish_connection (env : Env) (cfg : Config) :
    Except PyErr (Option Session) :=
  if cfg.authPresent = false then
    Except.ok none
  else if cfg.auth_type = "" then
    Except.ok (if env.connectOk then some (Session.plain cfg.host cfg.port) else none)
  else if pyUpper cfg.auth_type = "LDAP" then
    Except.ok (if env.connectOk then
      some (Session.ldap cfg.host cfg.port cfg.user cfg.password
              cfg.use_http_transport cfg.use_ssl cfg.http_path)
      else none)
  else
    Except.ok none

/-- An input Airbyte message: a record (stream name plus structured
payload, kept opaque as a string), a state marker, or any other kind. -/
inductive Msg
  | record (stream : String) (data : String)
  | state (tok : Nat)
  | other
  deriving DecidableEq, Repr

/-- Is this message a state marker? -/
def Msg.isState : Msg → Bool
  | Msg.state _ => true
  | _ => false

/-- One raw-table row: generated id, ingestion timestamp, serialized
payload — the fixed three-column layout. -/
structure Row where
  rid : String
  inserted_at : Nat
  payload : String
  deriving DecidableEq, Repr

/-- Requested sync mode of a configured stream. -/
inductive SyncMode
  | append
  | overwrite
  deriving DecidableEq, Repr

/-- One entry of the configured catalog. -/
structure ConfiguredStream where
  name : String
  mode : SyncMode
  deriving DecidableEq, Repr

abbrev Catalog := List ConfiguredStream

/-- Association list from stream name to rows; used both for the
warehouse-side raw tables and for the writer's in-memory buffers. -/
abbrev Tables := List (String × List Row)

/-- First binding of a stream name, if any. -/
def getRows : Tables → String → Option (List Row)
  | [], _ => none
  | (n, rs) :: t, s => if n = s then some rs else getRows t s

/-- Rows bound to a stream name, defaulting to the empty list. -/
def rowsOf (t : Tables) (s : String) : List Row :=
  (getRows t s).getD []

/-- Replace the rows of an existing binding; identity when absent. -/
def setRows : Tables → String → List Row → Tables
  | [], _, _ => []
  | (n, rs) :: t, s, rs' =>
      if n = s then (n, rs') :: t else (n, rs) :: setRows t s rs'

/-- Remove every binding of a stream name. -/
def eraseTable (t : Tables) (s : String) : Tables :=
  match t with
  | [] => []
  | (n, rs) :: t' =>
      if n = s then eraseTable t' s else (n, rs) :: eraseTable t' s

/-- Modelled from the spec: `create_raw_table` of the missing writer
module — create the fixed-schema table if absent, no-op if present. -/
def createTable (t : Tables) (s : String) : Tables :=
  if (getRows t s).isSome then t else t ++ [(s, [])]

/-- Append rows to a table (the effect of one bulk insert). -/
def appendRows (t : Tables) (s : String) (rs : List Row) : Tables :=
  if (getRows t s).isSome then setRows t s (rowsOf t s ++ rs)
  else t ++ [(s, rs)]

/-- Append one row to a stream's buffer, creating the buffer at the end
of the list on first use (first-seen stream order). -/
def bufAdd (b : Tables) (s : String) (r : Row) : Tables :=
  if (getRows b s).isSome then setRows b s (rowsOf b s ++ [r])
  else b ++ [(s, [r])]

/-- Empty a stream's buffer, keeping its binding (and hence its
first-seen position). -/
def bufClear (b : Tables) (s : String) : Tables :=
  setRows b s []

/-- Observable side effects of a sync, in order: DDL per stream, bulk
inserts, and the scoped release of the session on exit of the
`with` block. -/
inductive Ev
  | dropT (s : String)
  | createT (s : String)
  | insertRows (s : String) (n : Nat)
  | release
  deriving DecidableEq, Repr

/-- Orchestrator state while the `with` block runs: warehouse tables,
writer buffers, the ingestion counter feeding `uuid4`/`datetime.now`,
and the yielded messages and emitted events (both most-recent-first). -/
structure St where
  tables : Tables
  buffers : Tables
  k : Nat
  outs : List Msg
  evs : List Ev
  deriving DecidableEq, Repr

/-- Run the second action only when the first succeeded. -/
def andThen (r : St × Option PyErr) (f : St → St × Option PyErr) :
    St × Option PyErr :=
  match r with
  | (st, some e) => (st, some e)
  | (st, none) => f st

/-- Modelled from the spec: `delete_table` of the missing writer module —
idempotent drop, executing one DDL statement (fails when execution
fails). -/
def delete_table (env : Env) (st : St) (s : String) : St × Option PyErr :=
  if env.execOk then
    ({ st with tables := eraseTable st.tables s, evs := Ev.dropT s :: st.evs },
      none)
  else (st, some PyErr.writeError)

/-- Modelled from the spec: `create_raw_table` of the missing writer
module — idempotent create, executing one DDL statement. -/
def create_raw_table (env : Env) (st : St) (s : String) : St × Option PyErr :=
  if env.execOk then
    ({ st with tables := createTable st.tables s, evs := Ev.createT s :: st.evs },
      none)
  else (st, some PyErr.writeError)

/-- Modelled from the spec: flush one stream's buffer as a single bulk
insert, then clear it; a no-op when the buffer is empty; fails (buffer
kept) when execution fails. -/
def flushStream (env : Env) (st : St) (s : String) : St × Option PyErr :=
  if rowsOf st.buffers s = [] then (st, none)
  else if env.execOk then
    ({ st with tables := appendRows st.tables s (rowsOf st.buffers s), buffers := bufClear st.buffers s, evs := Ev.insertRows s (rowsOf st.buffers s).length :: st.evs }, none)
  else (st, some PyErr.writeError)

/-- Modelled from the spec: `queue_write_data(stream, id, ts, payload)` —
append to the stream's buffer; when the buffer reaches the configured
row-count threshold, flush that stream synchronously. -/
def queue_write_data (env : Env) (threshold : Nat) (st : St)
    (s rid : String) (ts : Nat) (payload : String) : St × Option PyErr :=
  if threshold ≤ (rowsOf (bufAdd st.buffers s ⟨rid, ts, payload⟩) s).length then
    flushStream env { st with buffers := bufAdd st.buffers s ⟨rid, ts, payload⟩ } s
  else ({ st with buffers := bufAdd st.buffers s ⟨rid, ts, payload⟩ }, none)

/-- Preparing, one catalog entry: drop the table when the sync mode is
overwrite, then ensure the raw table exists. -/
def prepareStream (env : Env) (st : St) (cs : ConfiguredStream) :
    St × Option PyErr :=
  andThen
    (if cs.mode = SyncMode.overwrite then delete_table env st cs.name
      else (st, none))
    (fun st1 => create_raw_table env st1 cs.name)

/-- Run a fallible step over a list, stopping at the first error. -/
def runList {α : Type} (step : St → α → St × Option PyErr) :
    St → List α → St × Option PyErr
  | st, [] => (st, none)
  | st, x :: xs => andThen (step st x) (fun st1 => runList step st1 xs)

/-- Preparing: the loop over `configured_catalog.streams`. -/
def prepareAll (env : Env) (st : St) (cat : Catalog) : St × Option PyErr :=
  runList (fun st1 cs => prepareStream env st1 cs) st cat

/-- Draining, one input message: a state marker is yielded immediately;
a record of a configured stream is queued with a fresh id and timestamp
(incrementing the ingestion counter); anything else is skipped. -/
def drainStep (env : Env) (threshold : Nat) (dumps : String → String)
    (ids : Nat → String) (times : Nat → Nat) (names : List String)
    (st : St) (m : Msg) : St × Option PyErr :=
  match m with
  | Msg.state _ => ({ st with outs := m :: st.outs }, none)
  | Msg.record s d =>
      if s ∈ names then
        queue_write_data env threshold { st with k := st.k + 1 }
          s (ids st.k) (times st.k) (dumps d)
      else (st, none)
  | Msg.other => (st, none)

/-- Draining: the loop over `input_messages`, stopping at the first
error (which the generator propagates). -/
def drainAll (env : Env) (threshold : Nat) (dumps : String → String)
    (ids : Nat → String) (times : Nat → Nat) (names : List String)
    (st : St) (msgs : List Msg) : St × Option PyErr :=
  runList (fun st1 m => drainStep env threshold dumps ids times names st1 m)
    st msgs

/-- Modelled from the spec: the no-argument `flush` — drain every
stream's buffer in first-seen order. -/
def flushKeys (env : Env) (st : St) (keys : List String) : St × Option PyErr :=
  runList (fun st1 s => flushStream env st1 s) st keys

/-- Flush all buffers. -/
def flushAllBuffers (env : Env) (st : St) : St × Option PyErr :=
  flushKeys env st (st.buffers.map Prod.fst)

/-- The body of the `with` block of `write`: prepare every catalog
stream, drain the input, and run the final unconditional flush. -/
def runSync (env : Env) (threshold : Nat) (dumps : String → String)
    (ids : Nat → String) (times : Nat → Nat) (catalog : Catalog)
    (msgs : List Msg) (tables0 : Tables) : St × Option PyErr :=
  andThen (prepareAll env ⟨tables0, [], 0, [], []⟩ catalog) (fun st1 =>
    andThen (drainAll env threshold dumps ids times
        (catalog.map ConfiguredStream.name) st1 msgs) (fun st2 =>
      flushAllBuffers env st2))

/-- What iterating the `write` generator to exhaustion (or to its first
uncaught exception) produced. -/
structure WriteResult where
  outs : List Msg
  evs : List Ev
  tables : Tables
  buffers : Tables
  err : Option PyErr
  deriving DecidableEq, Repr

/-- Leaving the `with` block: the session is released (on success and on
error alike) before control returns to the caller. -/
def finishRun (st : St) (e : Option PyErr) : WriteResult :=
  ⟨st.outs.reverse, (Ev.release :: st.evs).reverse, st.tables, st.buffers, e⟩

/-- `DestinationHive.write`. When `establish_connection` hands back
`None`, entering `with None as connection` raises before anything else
happens: no message is consumed, no DDL runs, nothing is yielded and the
(nonexistent) session is not released. -/
def write (env : Env) (threshold : Nat) (dumps : String → String)
    (ids : Nat → String) (times : Nat → Nat) (cfg : Config)
    (catalog : Catalog) (msgs : List Msg) (tables0 : Tables) : WriteResult :=
  match establish_connection env cfg with
  | Except.error e => ⟨[], [], tables0, [], some e⟩
  | Except.ok none => ⟨[], [], tables0, [], some PyErr.noneContext⟩
  | Except.ok (some _) =>
      match runSync env threshold dumps ids times catalog msgs tables0 with
      | (st, e) => finishRun st e

/-- Result of the connection `check` operation. -/
inductive CheckStatus
  | succeeded
  | failed (message : String)
  deriving DecidableEq, Repr

/-- `DestinationHive.check`: run `SELECT 1` and construct a writer inside
a catch-all `try`; every failure becomes a FAILED status with a message,
success becomes SUCCEEDED. -/
def check (env : Env) (cfg : Config) : CheckStatus :=
  match establish_connection env cfg with
  | Except.error _ =>
      CheckStatus.failed "An exception occurred: connection error"
  | Except.ok none =>
      CheckStatus.failed "An exception occurred: NoneType is not a context manager"
  | Except.ok (some _) =>
      if env.execOk then CheckStatus.succeeded
      else CheckStatus.failed "An exception occurred: query execution error"

/-! ### Derived notions used to state the claims -/

/-- All rows a stream owns at some instant: committed table rows
followed by the rows still pending in the in-memory buffer. -/
def content (st : St) (s : String) : List Row :=
  rowsOf st.tables s ++ rowsOf st.buffers s

/-- The DDL events Preparing performs, in order: for each catalog entry,
a drop exactly when its sync mode is overwrite, then the create. -/
def prepEvs : Catalog → List Ev
  | [] => []
  | cs :: rest =>
      (if cs.mode = SyncMode.overwrite then [Ev.dropT cs.name] else [])
        ++ (Ev.createT cs.name :: prepEvs rest)

/-- A list of events consisting only of bulk-insert events. -/
def insertOnly (l : List Ev) : Prop :=
  ∀ e ∈ l, ∃ nm n, e = Ev.insertRows nm n

/-- How many records of configured streams a message list holds (each
one advances the ingestion counter). -/
def confCount (names : List String) : List Msg → Nat
  | [] => 0
  | Msg.record s _ :: ms =>
      (if s ∈ names then 1 else 0) + confCount names ms
  | _ :: ms => confCount names ms

/-- The rows stream `s` gains while draining `msgs` with the ingestion
counter starting at `k`: one row per configured record of `s`, carrying
the generated id and timestamp of its global ingestion index and the
serialized payload, in arrival order. -/
def newRowsFrom (dumps : String → String) (ids : Nat → String)
    (times : Nat → Nat) (names : List String) (s : String) :
    Nat → List Msg → List Row
  | _, [] => []
  | k, Msg.record s' d :: ms =>
      if s' ∈ names then
        (if s' = s then [⟨ids k, times k, dumps d⟩] else [])
          ++ newRowsFrom dumps ids times names s (k + 1) ms
      else newRowsFrom dumps ids times names s k ms
  | k, Msg.state _ :: ms => newRowsFrom dumps ids times names s k ms
  | k, Msg.other :: ms => newRowsFrom dumps ids times names s k ms

/-- The ingestion indices behind the rows of `newRowsFrom`. -/
def rowIdxs (names : List String) (s : String) : Nat → List Msg → List Nat
  | _, [] => []
  | k, Msg.record s' _ :: ms =>
      if s' ∈ names then
        (if s' = s then [k] else []) ++ rowIdxs names s (k + 1) ms
      else rowIdxs names s k ms
  | k, Msg.state _ :: ms => rowIdxs names s k ms
  | k, Msg.other :: ms => rowIdxs names s k ms

/-! ### Concrete fixtures for counterexamples and witnesses -/

/-- A "none"-variant configuration (empty `auth_type`). -/
def cfgNone : Config := ⟨true, "", "localhost", 10000, "", "", false, false, ""⟩

/-- An LDAP configuration. -/
def cfgLdap : Config := ⟨true, "ldap", "localhost", 10000, "u", "p", false, false, ""⟩

/-- A configuration with an unrecognized `auth_type`. -/
def cfgKerberos : Config :=
  ⟨true, "KERBEROS", "localhost", 10000, "u", "p", false, false, ""⟩

/-- Driver reachable and SQL execution healthy. -/
def envOk : Env := ⟨true, true⟩

/-- Host unreachable (or authentication rejected): connect raises. -/
def envNoConnect : Env := ⟨false, true⟩

/-- Connect succeeds but every SQL execution raises. -/
def envNoExec : Env := ⟨true, false⟩

/-- Sample uuid supply for concrete runs. -/
def idsW : Nat → String := fun k => String.push "u" (Char.ofNat (48 + k))

/-- Sample clock supply for concrete runs. -/
def timesW : Nat → Nat := fun k => 100 + k

/-- A one-stream append-mode catalog. -/
def catA : Catalog := [⟨"a", SyncMode.append⟩]

/-- The orchestrator state right after Preparing on `catA` against an
empty warehouse, with the input not yet consumed. -/
def stPreparedA : St :=
  (prepareAll envOk ⟨[], [], 0, [], []⟩ catA).1

/-- The orchestrator state after additionally draining one configured
record for stream `a`, i.e. the state at the instant a subsequent state
marker is reached. -/
def stAfterRecordA : St :=
  (drainAll envOk 2 id idsW timesW ["a"] stPreparedA [Msg.record "a" "x"]).1

/-- A two-stream catalog mixing append and overwrite modes. -/
def catAB : Catalog := [⟨"a", SyncMode.append⟩, ⟨"b", SyncMode.overwrite⟩]

/-- A sample input mixing configured records, a record of an
unconfigured stream, another message kind and state markers. -/
def msgsW : List Msg :=
  [Msg.record "a" "x", Msg.other, Msg.record "c" "z", Msg.state 5,
    Msg.record "b" "y", Msg.state 6]

/-- A sample pre-existing warehouse. -/
def tablesW : Tables :=
  [("a", [⟨"old", 1, "o1"⟩]), ("b", [⟨"old", 2, "o2"⟩])]

end DestinationHive

namespace DestinationHive

/-! ### Association-list lemmas -/

theorem getRows_setRows_self (t : Tables) (s : String) (rs : List Row) :
    getRows (setRows t s rs) s = (getRows t s).map (fun _ => rs) := by
  induction t with
  | nil => simp [setRows, getRows]
  | cons p t ih =>
      obtain ⟨n, rs0⟩ := p
      by_cases h : n = s
      · simp [setRows, getRows, h]
      · simp [setRows, getRows, h, ih]

theorem getRows_setRows_ne (t : Tables) {s s' : String} (h : s ≠ s')
    (rs : List Row) : getRows (setRows t s rs) s' = getRows t s' := by
  induction t with
  | nil => simp [setRows]
  | cons p t ih =>
      obtain ⟨n, rs0⟩ := p
      by_cases hn : n = s
      · subst hn
        simp [setRows, getRows, h, Ne.symm h]
      · by_cases hn' : n = s'
        · simp [setRows, getRows, hn, hn', Ne.symm h]
        · simp [setRows, getRows, hn, hn', ih]

theorem getRows_append_some {t : Tables} {s : String} {a : List Row}
    (h : getRows t s = some a) (u : Tables) : getRows (t ++ u) s = some a := by
  induction t with
  | nil => simp [getRows] at h
  | cons p t ih =>
      obtain ⟨n, rs0⟩ := p
      by_cases hn : n = s
      · simp [getRows, hn] at h ⊢
        exact h
      · simp [getRows, hn] at h ⊢
        exact ih h

theorem getRows_append_none {t : Tables} {s : String}
    (h : getRows t s = none) (u : Tables) : getRows (t ++ u) s = getRows u s := by
  induction t with
  | nil => simp
  | cons p t ih =>
      obtain ⟨n, rs0⟩ := p
      by_cases hn : n = s
      · simp [getRows, hn] at h
      · simp [getRows, hn] at h ⊢
        exact ih h

theorem getRows_erase_self (t : Tables) (s : String) :
    getRows (eraseTable t s) s = none := by
  induction t with
  | nil => simp [eraseTable, getRows]
  | cons p t ih =>
      obtain ⟨n, rs0⟩ := p
      by_cases hn : n = s
      · simp [eraseTable, hn, ih]
      · simp [eraseTable, getRows, hn, ih]

theorem getRows_erase_ne (t : Tables) {s s' : String} (h : s ≠ s') :
    getRows (eraseTable t s) s' = getRows t s' := by
  induction t with
  | nil => simp [eraseTable]
  | cons p t ih =>
      obtain ⟨n, rs0⟩ := p
      by_cases hn : n = s
      · subst hn
        simp [eraseTable, getRows, h, ih]
      · by_cases hn' : n = s'
        · simp [eraseTable, getRows, hn, hn', Ne.symm h]
        · simp [eraseTable, getRows, hn, hn', ih]

theorem getRows_createTable_ne {s s' : String} (h : s ≠ s') (t : Tables) :
    getRows (createTable t s) s' = getRows t s' := by
  unfold createTable
  by_cases hs : (getRows t s).isSome
  · simp [hs]
  · rcases hg : getRows t s' with _ | a
    · rw [if_neg hs, getRows_append_none hg]
      simp [getRows, h]
    · rw [if_neg hs, getRows_append_some hg]

theorem rowsOf_createTable_self (t : Tables) (s : String) :
    rowsOf (createTable t s) s = rowsOf t s := by
  unfold createTable rowsOf
  by_cases hs : (getRows t s).isSome
  · simp [hs]
  · rw [Option.not_isSome_iff_eq_none] at hs
    rw [if_neg (by simp [hs]), getRows_append_none hs]
    simp [getRows, hs]

theorem getRows_bufAdd_ne {s s' : String} (h : s ≠ s') (b : Tables)
    (r : Row) : getRows (bufAdd b s r) s' = getRows b s' := by
  unfold bufAdd
  by_cases hs : (getRows b s).isSome
  · simp [hs, getRows_setRows_ne b h]
  · rcases hg : getRows b s' with _ | a
    · rw [if_neg hs, getRows_append_none hg]
      simp [getRows, h]
    · rw [if_neg hs, getRows_append_some hg]

theorem rowsOf_bufAdd_self (b : Tables) (s : String) (r : Row) :
    rowsOf (bufAdd b s r) s = rowsOf b s ++ [r] := by
  unfold bufAdd rowsOf
  by_cases hs : (getRows b s).isSome
  · rcases hg : getRows b s with _ | a
    · simp [hg] at hs
    · simp [hs, getRows_setRows_self, hg, rowsOf]
  · rw [Option.not_isSome_iff_eq_none] at hs
    rw [if_neg (by simp [hs]), getRows_append_none hs]
    simp [getRows, hs]

theorem getRows_appendRows_ne {s s' : String} (h : s ≠ s') (t : Tables)
    (rs : List Row) : getRows (appendRows t s rs) s' = getRows t s' := by
  unfold appendRows
  by_cases hs : (getRows t s).isSome
  · simp [hs, getRows_setRows_ne t h]
  · rcases hg : getRows t s' with _ | a
    · rw [if_neg hs, getRows_append_none hg]
      simp [getRows, h]
    · rw [if_neg hs, getRows_append_some hg]

theorem rowsOf_appendRows_self (t : Tables) (s : String) (rs : List Row) :
    rowsOf (appendRows t s rs) s = rowsOf t s ++ rs := by
  unfold appendRows rowsOf
  by_cases hs : (getRows t s).isSome
  · rcases hg : getRows t s with _ | a
    · simp [hg] at hs
    · simp [hs, getRows_setRows_self, hg, rowsOf]
  · rw [Option.not_isSome_iff_eq_none] at hs
    rw [if_neg (by simp [hs]), getRows_append_none hs]
    simp [getRows, hs]

theorem getRows_bufClear_ne {s s' : String} (h : s ≠ s') (b : Tables) :
    getRows (bufClear b s) s' = getRows b s' := by
  unfold bufClear
  exact getRows_setRows_ne b h []

theorem rowsOf_bufClear_self (b : Tables) (s : String) :
    rowsOf (bufClear b s) s = [] := by
  unfold bufClear rowsOf
  rw [getRows_setRows_self]
  rcases getRows b s with _ | a <;> simp

theorem mem_keys_of_getRows_some {b : Tables} {s : String} {rs : List Row}
    (h : getRows b s = some rs) : s ∈ b.map Prod.fst := by
  induction b with
  | nil => simp [getRows] at h
  | cons p b ih =>
      obtain ⟨n, rs0⟩ := p
      by_cases hn : n = s
      · simp [hn]
      · simp [getRows, hn] at h
        simpa using Or.inr (ih h)

/-! ### Writer-operation lemmas -/

theorem delete_table_ok {env : Env} (hexec : env.execOk = true) (st : St)
    (s : String) :
    delete_table env st s =
      ({ st with tables := eraseTable st.tables s, evs := Ev.dropT s :: st.evs }, none) := by
  simp [delete_table, hexec]

theorem create_raw_table_ok {env : Env} (hexec : env.execOk = true) (st : St)
    (s : String) :
    create_raw_table env st s =
      ({ st with tables := createTable st.tables s, evs := Ev.createT s :: st.evs }, none) := by
  simp [create_raw_table, hexec]

theorem flushStream_outs (env : Env) (st : St) (s : String) :
    (flushStream env st s).1.outs = st.outs := by
  unfold flushStream
  split
  · rfl
  · split <;> rfl

theorem flushStream_k (env : Env) (st : St) (s : String) :
    (flushStream env st s).1.k = st.k := by
  unfold flushStream
  split
  · rfl
  · split <;> rfl

theorem flushStream_ok {env : Env} (hexec : env.execOk = true) (st : St)
    (s : String) : (flushStream env st s).2 = none := by
  unfold flushStream
  split
  · rfl
  · simp [hexec]

theorem flushStream_noop {st : St} {s : String}
    (h : rowsOf st.buffers s = []) (env : Env) :
    flushStream env st s = (st, none) := by
  simp [flushStream, h]

theorem flushStream_content (env : Env) (st : St) (s s' : String) :
    content (flushStream env st s).1 s' = content st s' := by
  unfold flushStream
  split
  · rfl
  · split
    · by_cases hs : s = s'
      · subst hs
        simp [content, rowsOf_appendRows_self, rowsOf_bufClear_self]
      · simp [content, rowsOf, getRows_appendRows_ne hs, getRows_bufClear_ne hs]
    · rfl

theorem flushStream_buf_self {env : Env} (hexec : env.execOk = true)
    (st : St) (s : String) :
    rowsOf (flushStream env st s).1.buffers s = [] := by
  unfold flushStream
  split
  · next h => exact h
  · simp [hexec, rowsOf_bufClear_self]

theorem flushStream_buf_ne {s s' : String} (h : s ≠ s') (env : Env)
    (st : St) :
    rowsOf (flushStream env st s).1.buffers s' = rowsOf st.buffers s' := by
  unfold flushStream
  split
  · rfl
  · split
    · simp [rowsOf, getRows_bufClear_ne h]
    · rfl

theorem flushStream_getRows_tables_ne {s s' : String} (h : s ≠ s')
    (env : Env) (st : St) :
    getRows (flushStream env st s).1.tables s' = getRows st.tables s' := by
  unfold flushStream
  split
  · rfl
  · split
    · simp [getRows_appendRows_ne h]
    · rfl

theorem flushStream_getRows_buf_ne {s s' : String} (h : s ≠ s')
    (env : Env) (st : St) :
    getRows (flushStream env st s).1.buffers s' = getRows st.buffers s' := by
  unfold flushStream
  split
  · rfl
  · split
    · simp [getRows_bufClear_ne h]
    · rfl

theorem flushStream_evs (env : Env) (st : St) (s : String) :
    ∃ ins, (flushStream env st s).1.evs = ins ++ st.evs ∧ insertOnly ins := by
  unfold flushStream
  split
  · exact ⟨[], rfl, by simp [insertOnly]⟩
  · split
    · refine ⟨[Ev.insertRows s (rowsOf st.buffers s).length], rfl, ?_⟩
      intro e he
      simp at he
      exact ⟨s, _, he⟩
    · exact ⟨[], rfl, by simp [insertOnly]⟩

theorem queue_write_data_outs (env : Env) (threshold : Nat) (st : St)
    (s rid : String) (ts : Nat) (payload : String) :
    (queue_write_data env threshold st s rid ts payload).1.outs = st.outs := by
  unfold queue_write_data
  split
  · exact flushStream_outs env _ s
  · rfl

theorem queue_write_data_k (env : Env) (threshold : Nat) (st : St)
    (s rid : String) (ts : Nat) (payload : String) :
    (queue_write_data env threshold st s rid ts payload).1.k = st.k := by
  unfold queue_write_data
  split
  · exact flushStream_k env _ s
  · rfl

theorem queue_write_data_ok {env : Env} (hexec : env.execOk = true)
    (threshold : Nat) (st : St) (s rid : String) (ts : Nat)
    (payload : String) :
    (queue_write_data env threshold st s rid ts payload).2 = none := by
  unfold queue_write_data
  split
  · exact flushStream_ok hexec _ s
  · rfl

theorem queue_write_data_content_self (env : Env) (threshold : Nat)
    (st : St) (s rid : String) (ts : Nat) (payload : String) :
    content (queue_write_data env threshold st s rid ts payload).1 s =
      content st s ++ [⟨rid, ts, payload⟩] := by
  unfold queue_write_data
  split
  · rw [flushStream_content]
    simp [content, rowsOf_bufAdd_self]
  · simp [content, rowsOf_bufAdd_self]

theorem queue_write_data_content_ne {s s' : String} (h : s ≠ s')
    (env : Env) (threshold : Nat) (st : St) (rid : String) (ts : Nat)
    (payload : String) :
    content (queue_write_data env threshold st s rid ts payload).1 s' =
      content st s' := by
  unfold queue_write_data
  split
  · rw [flushStream_content]
    simp [content, rowsOf, getRows_bufAdd_ne h]
  · simp [content, rowsOf, getRows_bufAdd_ne h]

theorem queue_write_data_getRows_tables_ne {s s' : String} (h : s ≠ s')
    (env : Env) (threshold : Nat) (st : St) (rid : String) (ts : Nat)
    (payload : String) :
    getRows (queue_write_data env threshold st s rid ts payload).1.tables s' =
      getRows st.tables s' := by
  unfold queue_write_data
  split
  · rw [flushStream_getRows_tables_ne h]
  · rfl

theorem queue_write_data_getRows_buf_ne {s s' : String} (h : s ≠ s')
    (env : Env) (threshold : Nat) (st : St) (rid : String) (ts : Nat)
    (payload : String) :
    getRows (queue_write_data env threshold st s rid ts payload).1.buffers s' =
      getRows st.buffers s' := by
  unfold queue_write_data
  split
  · rw [flushStream_getRows_buf_ne h]
    exact getRows_bufAdd_ne h st.buffers ⟨rid, ts, payload⟩
  · exact getRows_bufAdd_ne h st.buffers ⟨rid, ts, payload⟩

theorem queue_write_data_evs (env : Env) (threshold : Nat) (st : St)
    (s rid : String) (ts : Nat) (payload : String) :
    ∃ ins, (queue_write_data env threshold st s rid ts payload).1.evs =
      ins ++ st.evs ∧ insertOnly ins := by
  unfold queue_write_data
  split
  · exact flushStream_evs env _ s
  · exact ⟨[], rfl, by simp [insertOnly]⟩

/-! ### Generic loop lemmas -/

theorem runList_ok {α : Type} {step : St → α → St × Option PyErr}
    (hstep : ∀ st x, (step st x).2 = none) :
    ∀ (xs : List α) (st : St), (runList step st xs).2 = none := by
  intro xs
  induction xs with
  | nil => intro st; rfl
  | cons x xs ih =>
      intro st
      rcases hx : step st x with ⟨st1, e⟩
      have he : e = none := by
        have := hstep st x
        rw [hx] at this
        exact this
      subst he
      simpa [runList, andThen, hx] using ih st1

theorem runList_pres {α : Type} (P : St → Prop)
    {step : St → α → St × Option PyErr}
    (hstep : ∀ st x, P st → P (step st x).1) :
    ∀ (xs : List α) (st : St), P st → P (runList step st xs).1 := by
  intro xs
  induction xs with
  | nil => intro st h; exact h
  | cons x xs ih =>
      intro st h
      rcases hx : step st x with ⟨st1, e⟩
      have h1 : P st1 := by
        have := hstep st x h
        rw [hx] at this
        exact this
      cases e with
      | none => simpa [runList, andThen, hx] using ih st1 h1
      | some e => simpa [runList, andThen, hx] using h1

/-! ### Preparing-phase lemmas -/

theorem prepareStream_outs (env : Env) (st : St) (cs : ConfiguredStream) :
    (prepareStream env st cs).1.outs = st.outs := by
  unfold prepareStream
  by_cases hm : cs.mode = SyncMode.overwrite <;> by_cases he : env.execOk <;>
    simp [hm, he, andThen, delete_table, create_raw_table]

theorem prepareStream_k (env : Env) (st : St) (cs : ConfiguredStream) :
    (prepareStream env st cs).1.k = st.k := by
  unfold prepareStream
  by_cases hm : cs.mode = SyncMode.overwrite <;> by_cases he : env.execOk <;>
    simp [hm, he, andThen, delete_table, create_raw_table]

theorem prepareStream_buffers (env : Env) (st : St) (cs : ConfiguredStream) :
    (prepareStream env st cs).1.buffers = st.buffers := by
  unfold prepareStream
  by_cases hm : cs.mode = SyncMode.overwrite <;> by_cases he : env.execOk <;>
    simp [hm, he, andThen, delete_table, create_raw_table]

theorem prepareStream_err {env : Env} (hexec : env.execOk = true) (st : St)
    (cs : ConfiguredStream) : (prepareStream env st cs).2 = none := by
  unfold prepareStream
  by_cases hm : cs.mode = SyncMode.overwrite <;>
    simp [hm, andThen, delete_table_ok hexec, create_raw_table_ok hexec]

theorem prepareStream_evs {env : Env} (hexec : env.execOk = true) (st : St)
    (cs : ConfiguredStream) :
    (prepareStream env st cs).1.evs =
      ((if cs.mode = SyncMode.overwrite then [Ev.dropT cs.name] else [])
        ++ [Ev.createT cs.name]).reverse ++ st.evs := by
  unfold prepareStream
  by_cases hm : cs.mode = SyncMode.overwrite <;>
    simp [hm, andThen, delete_table_ok hexec, create_raw_table_ok hexec]

theorem prepareStream_rows_self {env : Env} (hexec : env.execOk = true)
    (st : St) (cs : ConfiguredStream) :
    rowsOf (prepareStream env st cs).1.tables cs.name =
      (if cs.mode = SyncMode.overwrite then [] else rowsOf st.tables cs.name) := by
  unfold prepareStream
  by_cases hm : cs.mode = SyncMode.overwrite
  · simp [hm, andThen, delete_table_ok hexec, create_raw_table_ok hexec,
      rowsOf_createTable_self]
    simp [rowsOf, getRows_erase_self]
  · simp [hm, andThen, create_raw_table_ok hexec, rowsOf_createTable_self]

theorem prepareStream_getRows_ne {cs : ConfiguredStream} {s : String}
    (h : cs.name ≠ s) (env : Env) (st : St) :
    getRows (prepareStream env st cs).1.tables s = getRows st.tables s := by
  unfold prepareStream
  by_cases hm : cs.mode = SyncMode.overwrite <;> by_cases he : env.execOk <;>
    simp [hm, he, andThen, delete_table, create_raw_table,
      getRows_createTable_ne h, getRows_erase_ne, h]

theorem prepareAll_outs (env : Env) (cat : Catalog) (st : St) :
    (prepareAll env st cat).1.outs = st.outs :=
  runList_pres (fun st' => st'.outs = st.outs)
    (fun st1 cs h => (prepareStream_outs env st1 cs).trans h) cat st rfl

theorem prepareAll_k (env : Env) (cat : Catalog) (st : St) :
    (prepareAll env st cat).1.k = st.k :=
  runList_pres (fun st' => st'.k = st.k)
    (fun st1 cs h => (prepareStream_k env st1 cs).trans h) cat st rfl

theorem prepareAll_buffers (env : Env) (cat : Catalog) (st : St) :
    (prepareAll env st cat).1.buffers = st.buffers :=
  runList_pres (fun st' => st'.buffers = st.buffers)
    (fun st1 cs h => (prepareStream_buffers env st1 cs).trans h) cat st rfl

theorem prepareAll_ok {env : Env} (hexec : env.execOk = true) (cat : Catalog)
    (st : St) : (prepareAll env st cat).2 = none :=
  runList_ok (fun st1 cs => prepareStream_err hexec st1 cs) cat st

theorem prepareAll_evs {env : Env} (hexec : env.execOk = true) :
    ∀ (cat : Catalog) (st : St),
      (prepareAll env st cat).1.evs = (prepEvs cat).reverse ++ st.evs := by
  intro cat
  induction cat with
  | nil => intro st; simp [prepareAll, runList, prepEvs]
  | cons cs rest ih =>
      intro st
      rcases hp : prepareStream env st cs with ⟨st1, e⟩
      have he : e = none := by
        have := prepareStream_err hexec st cs
        rw [hp] at this
        exact this
      subst he
      have hevs := prepareStream_evs hexec st cs
      rw [hp] at hevs
      have : (prepareAll env st1 rest).1.evs = (prepEvs rest).reverse ++ st1.evs :=
        ih st1
      simp only [prepareAll, runList, andThen, hp]
      rw [show runList (fun st2 cs2 => prepareStream env st2 cs2) st1 rest
          = prepareAll env st1 rest from rfl, this, hevs, prepEvs]
      simp

theorem prepareAll_getRows_ne {s : String} (env : Env) :
    ∀ (cat : Catalog) (st : St), (∀ cs ∈ cat, cs.name ≠ s) →
      getRows (prepareAll env st cat).1.tables s = getRows st.tables s := by
  intro cat
  induction cat with
  | nil => intro st _; rfl
  | cons cs rest ih =>
      intro st hne
      rcases hp : prepareStream env st cs with ⟨st1, e⟩
      have h1 : getRows st1.tables s = getRows st.tables s := by
        have := prepareStream_getRows_ne (hne cs (by simp)) env st
        rw [hp] at this
        exact this
      cases e with
      | none =>
          have := ih st1 (fun cs' h' => hne cs' (by simp [h']))
          simpa [prepareAll, runList, andThen, hp, h1] using this
      | some e => simpa [prepareAll, runList, andThen, hp] using h1

theorem prepareAll_rows {env : Env} (hexec : env.execOk = true) :
    ∀ (cat : Catalog) (st : St),
      (cat.map ConfiguredStream.name).Nodup → ∀ cs ∈ cat,
        rowsOf (prepareAll env st cat).1.tables cs.name =
          (if cs.mode = SyncMode.overwrite then [] else rowsOf st.tables cs.name) := by
  intro cat
  induction cat with
  | nil => intro st _ cs h; simp at h
  | cons c rest ih =>
      intro st hnd cs hcs
      have hndr : (rest.map ConfiguredStream.name).Nodup := by
        simpa using hnd.of_cons
      have hcn : c.name ∉ rest.map ConfiguredStream.name := by
        have h2 := hnd
        rw [List.map_cons, List.nodup_cons] at h2
        exact h2.1
      rcases hp : prepareStream env st c with ⟨st1, e⟩
      have he : e = none := by
        have := prepareStream_err hexec st c
        rw [hp] at this
        exact this
      subst he
      have hstep : prepareAll env st (c :: rest) = prepareAll env st1 rest := by
        simp [prepareAll, runList, andThen, hp]
      rcases List.mem_cons.mp hcs with hceq | hmem
      · subst hceq
        have hself := prepareStream_rows_self hexec st cs
        rw [hp] at hself
        have hrest : getRows (prepareAll env st1 rest).1.tables cs.name =
            getRows st1.tables cs.name := by
          refine prepareAll_getRows_ne env rest st1 ?_
          intro cs' h' heq
          exact hcn (heq ▸ List.mem_map_of_mem ConfiguredStream.name h')
        have hro : rowsOf (prepareAll env st1 rest).1.tables cs.name =
            rowsOf st1.tables cs.name := by
          simp [rowsOf, hrest]
        rw [hstep, hro]
        exact hself
      · have hne : c.name ≠ cs.name := by
          intro heq
          exact hcn (heq ▸ List.mem_map_of_mem ConfiguredStream.name hmem)
        have h1 : getRows st1.tables cs.name = getRows st.tables cs.name := by
          have := prepareStream_getRows_ne hne env st
          rw [hp] at this
          exact this
        rw [hstep, ih st1 hndr cs hmem]
        by_cases hmode : cs.mode = SyncMode.overwrite
        · simp [hmode]
        · simp [hmode, rowsOf, h1]

/-! ### Draining-phase lemmas -/

theorem drainStep_ok {env : Env} (hexec : env.execOk = true) (threshold : Nat)
    (dumps : String → String) (ids : Nat → String) (times : Nat → Nat)
    (names : List String) (st : St) (m : Msg) :
    (drainStep env threshold dumps ids times names st m).2 = none := by
  cases m with
  | record s d =>
      unfold drainStep
      by_cases hs : s ∈ names
      · simp [hs, queue_write_data_ok hexec]
      · simp [hs]
  | state t => rfl
  | other => rfl

theorem drainStep_getRows_pres {names : List String} {s : String}
    (hs : s ∉ names) (env : Env) (threshold : Nat)
    (dumps : String → String) (ids : Nat → String) (times : Nat → Nat)
    (st : St) (m : Msg) :
    getRows (drainStep env threshold dumps ids times names st m).1.buffers s
        = getRows st.buffers s ∧
      getRows (drainStep env threshold dumps ids times names st m).1.tables s
        = getRows st.tables s := by
  cases m with
  | record s' d =>
      unfold drainStep
      by_cases hs' : s' ∈ names
      · have hne : s' ≠ s := fun h => hs (h ▸ hs')
        simp [hs', queue_write_data_getRows_buf_ne hne,
          queue_write_data_getRows_tables_ne hne]
      · simp [hs']
  | state t => exact ⟨rfl, rfl⟩
  | other => exact ⟨rfl, rfl⟩

theorem drainAll_outs {env : Env} (hexec : env.execOk = true)
    (threshold : Nat) (dumps : String → String) (ids : Nat → String)
    (times : Nat → Nat) (names : List String) :
    ∀ (msgs : List Msg) (st : St),
      (drainAll env threshold dumps ids times names st msgs).1.outs =
        (msgs.filter Msg.isState).reverse ++ st.outs := by
  intro msgs
  induction msgs with
  | nil => intro st; simp [drainAll, runList]
  | cons m ms ih =>
      intro st
      rcases hd : drainStep env threshold dumps ids times names st m with ⟨st1, e⟩
      have he : e = none := by
        have := drainStep_ok hexec threshold dumps ids times names st m
        rw [hd] at this
        exact this
      subst he
      have hrec : drainAll env threshold dumps ids times names st (m :: ms)
          = drainAll env threshold dumps ids times names st1 ms := by
        simp [drainAll, runList, andThen, hd]
      rw [hrec, ih st1]
      cases m with
      | record s d =>
          have houts : st1.outs = st.outs := by
            have : (drainStep env threshold dumps ids times names st
                (Msg.record s d)).1.outs = st.outs := by
              unfold drainStep
              by_cases hs : s ∈ names <;> simp [hs, queue_write_data_outs]
            rw [hd] at this
            exact this
          simp [houts, Msg.isState]
      | state t =>
          have houts : st1.outs = Msg.state t :: st.outs := by
            have : (drainStep env threshold dumps ids times names st
                (Msg.state t)).1.outs = Msg.state t :: st.outs := rfl
            rw [hd] at this
            exact this
          simp [houts, Msg.isState]
      | other =>
          have houts : st1.outs = st.outs := by
            have : (drainStep env threshold dumps ids times names st
                Msg.other).1.outs = st.outs := rfl
            rw [hd] at this
            exact this
          simp [houts, Msg.isState]

theorem drainAll_nil (env : Env) (threshold : Nat) (dumps : String → String)
    (ids : Nat → String) (times : Nat → Nat) (names : List String) (st : St) :
    drainAll env threshold dumps ids times names st [] = (st, none) := rfl

theorem drainAll_cons (env : Env) (threshold : Nat) (dumps : String → String)
    (ids : Nat → String) (times : Nat → Nat) (names : List String) (st : St)
    (m : Msg) (ms : List Msg) :
    drainAll env threshold dumps ids times names st (m :: ms) =
      andThen (drainStep env threshold dumps ids times names st m)
        (fun st1 => drainAll env threshold dumps ids times names st1 ms) := rfl

theorem drainStep_record_mem {names : List String} {s' : String}
    (hs' : s' ∈ names) (env : Env) (threshold : Nat)
    (dumps : String → String) (ids : Nat → String) (times : Nat → Nat)
    (st : St) (d : String) :
    drainStep env threshold dumps ids times names st (Msg.record s' d) =
      queue_write_data env threshold { st with k := st.k + 1 } s'
        (ids st.k) (times st.k) (dumps d) := by
  unfold drainStep
  simp [hs']

theorem drainStep_record_not_mem {names : List String} {s' : String}
    (hs' : s' ∉ names) (env : Env) (threshold : Nat)
    (dumps : String → String) (ids : Nat → String) (times : Nat → Nat)
    (st : St) (d : String) :
    drainStep env threshold dumps ids times names st (Msg.record s' d) =
      (st, none) := by
  unfold drainStep
  simp [hs']

theorem drainAll_content {env : Env} (hexec : env.execOk = true)
    (threshold : Nat) (dumps : String → String) (ids : Nat → String)
    (times : Nat → Nat) (names : List String) :
    ∀ (msgs : List Msg) (st : St),
      (drainAll env threshold dumps ids times names st msgs).1.k
          = st.k + confCount names msgs ∧
      ∀ s, content (drainAll env threshold dumps ids times names st msgs).1 s
          = content st s ++ newRowsFrom dumps ids times names s st.k msgs := by
  intro msgs
  induction msgs with
  | nil =>
      intro st
      exact ⟨by simp [drainAll_nil, confCount],
        fun s => by simp [drainAll_nil, newRowsFrom]⟩
  | cons m ms ih =>
      intro st
      cases m with
      | record s' d =>
          by_cases hs' : s' ∈ names
          · rw [drainAll_cons, drainStep_record_mem hs']
            rcases hq : queue_write_data env threshold { st with k := st.k + 1 }
                s' (ids st.k) (times st.k) (dumps d) with ⟨st1, e⟩
            have he : e = none := by
              have := queue_write_data_ok hexec threshold
                { st with k := st.k + 1 } s' (ids st.k) (times st.k) (dumps d)
              rw [hq] at this
              exact this
            subst he
            have hk1 : st1.k = st.k + 1 := by
              have := queue_write_data_k env threshold { st with k := st.k + 1 }
                s' (ids st.k) (times st.k) (dumps d)
              rw [hq] at this
              exact this
            have hand : andThen (st1, none)
                (fun st2 => drainAll env threshold dumps ids times names st2 ms)
                = drainAll env threshold dumps ids times names st1 ms := rfl
            rw [hand]
            obtain ⟨ihk, ihc⟩ := ih st1
            refine ⟨by rw [ihk, hk1, confCount]; simp [hs']; omega, fun s => ?_⟩
            rw [ihc s, hk1]
            by_cases hss : s' = s
            · subst hss
              have hc1 : content st1 s' =
                  content st s' ++ [⟨ids st.k, times st.k, dumps d⟩] := by
                have := queue_write_data_content_self env threshold
                  { st with k := st.k + 1 } s' (ids st.k) (times st.k) (dumps d)
                rw [hq] at this
                simpa [content] using this
              rw [hc1]
              simp [newRowsFrom, hs']
            · have hc1 : content st1 s = content st s := by
                have := queue_write_data_content_ne hss env threshold
                  { st with k := st.k + 1 } (ids st.k) (times st.k) (dumps d)
                rw [hq] at this
                simpa [content] using this
              rw [hc1]
              simp [newRowsFrom, hs', hss]
          · rw [drainAll_cons, drainStep_record_not_mem hs']
            have hand : andThen (st, none)
                (fun st2 => drainAll env threshold dumps ids times names st2 ms)
                = drainAll env threshold dumps ids times names st ms := rfl
            rw [hand]
            obtain ⟨ihk, ihc⟩ := ih st
            exact ⟨by rw [ihk, confCount]; simp [hs'],
              fun s => by rw [ihc s]; simp [newRowsFrom, hs']⟩
      | state t =>
          rw [drainAll_cons]
          have hstep : drainStep env threshold dumps ids times names st
              (Msg.state t) = ({ st with outs := Msg.state t :: st.outs }, none) := rfl
          rw [hstep]
          have hand : andThen ({ st with outs := Msg.state t :: st.outs }, none)
              (fun st2 => drainAll env threshold dumps ids times names st2 ms)
              = drainAll env threshold dumps ids times names
                  { st with outs := Msg.state t :: st.outs } ms := rfl
          rw [hand]
          obtain ⟨ihk, ihc⟩ := ih { st with outs := Msg.state t :: st.outs }
          exact ⟨by rw [ihk]; rfl, fun s => by rw [ihc s]; simp [content, newRowsFrom]⟩
      | other =>
          rw [drainAll_cons]
          have hstep : drainStep env threshold dumps ids times names st Msg.other
              = (st, none) := rfl
          rw [hstep]
          have hand : andThen (st, none)
              (fun st2 => drainAll env threshold dumps ids times names st2 ms)
              = drainAll env threshold dumps ids times names st ms := rfl
          rw [hand]
          obtain ⟨ihk, ihc⟩ := ih st
          exact ⟨by rw [ihk]; rfl, fun s => by rw [ihc s]; simp [newRowsFrom]⟩

theorem drainAll_getRows_pres {names : List String} {s : String}
    (hs : s ∉ names) (env : Env) (threshold : Nat)
    (dumps : String → String) (ids : Nat → String) (times : Nat → Nat)
    (msgs : List Msg) (st : St) :
    getRows (drainAll env threshold dumps ids times names st msgs).1.buffers s
        = getRows st.buffers s ∧
      getRows (drainAll env threshold dumps ids times names st msgs).1.tables s
        = getRows st.tables s := by
  refine runList_pres (fun st' => getRows st'.buffers s = getRows st.buffers s ∧
    getRows st'.tables s = getRows st.tables s) ?_ msgs st ⟨rfl, rfl⟩
  intro st1 m h
  obtain ⟨hb, ht⟩ := drainStep_getRows_pres hs env threshold dumps ids times st1 m
  exact ⟨hb.trans h.1, ht.trans h.2⟩

/-! ### Flushing-phase lemmas -/

theorem flushKeys_ok {env : Env} (hexec : env.execOk = true)
    (keys : List String) (st : St) : (flushKeys env st keys).2 = none :=
  runList_ok (fun st1 s => flushStream_ok hexec st1 s) keys st

theorem flushKeys_outs (env : Env) (keys : List String) (st : St) :
    (flushKeys env st keys).1.outs = st.outs :=
  runList_pres (fun st' => st'.outs = st.outs)
    (fun st1 s h => (flushStream_outs env st1 s).trans h) keys st rfl

theorem flushKeys_content (env : Env) (keys : List String) (st : St)
    (s : String) :
    content (flushKeys env st keys).1 s = content st s :=
  runList_pres (fun st' => content st' s = content st s)
    (fun st1 kk h => (flushStream_content env st1 kk s).trans h) keys st rfl

theorem flushKeys_getRows_pres {s : String} (env : Env) (keys : List String)
    (st : St) (h0 : getRows st.buffers s = none) :
    getRows (flushKeys env st keys).1.buffers s = none ∧
      getRows (flushKeys env st keys).1.tables s = getRows st.tables s := by
  refine runList_pres (fun st' => getRows st'.buffers s = none ∧
    getRows st'.tables s = getRows st.tables s) ?_ keys st ⟨h0, rfl⟩
  intro st1 kk h
  by_cases hkk : kk = s
  · subst hkk
    have hempty : rowsOf st1.buffers kk = [] := by
      simp [rowsOf, h.1]
    rw [flushStream_noop hempty]
    exact h
  · exact ⟨(flushStream_getRows_buf_ne hkk env st1).trans h.1,
      (flushStream_getRows_tables_ne hkk env st1).trans h.2⟩

theorem flushKeys_empties {env : Env} (hexec : env.execOk = true) :
    ∀ (keys : List String) (st : St),
      (∀ s, rowsOf st.buffers s ≠ [] → s ∈ keys) →
      ∀ s, rowsOf (flushKeys env st keys).1.buffers s = [] := by
  intro keys
  induction keys with
  | nil =>
      intro st hcover s
      by_cases h : rowsOf st.buffers s = []
      · simpa [flushKeys, runList] using h
      · exact absurd (hcover s h) (by simp)
  | cons kk rest ih =>
      intro st hcover s
      rcases hf : flushStream env st kk with ⟨st1, e⟩
      have he : e = none := by
        have := flushStream_ok hexec st kk
        rw [hf] at this
        exact this
      subst he
      have hrec : flushKeys env st (kk :: rest) = flushKeys env st1 rest := by
        simp [flushKeys, runList, andThen, hf]
      rw [hrec]
      refine ih st1 ?_ s
      intro s2 hs2
      by_cases hs2k : s2 = kk
      · exfalso
        apply hs2
        subst hs2k
        have := flushStream_buf_self hexec st s2
        rw [hf] at this
        exact this
      · have hpres : rowsOf st1.buffers s2 = rowsOf st.buffers s2 := by
          have := flushStream_buf_ne (fun h => hs2k h.symm) env st
          rw [hf] at this
          exact this
        rw [hpres] at hs2
        have := hcover s2 hs2
        simp at this
        rcases this with h | h
        · exact absurd h.symm (fun hh => hs2k hh.symm)
        · exact h

theorem flushKeys_evs (env : Env) :
    ∀ (keys : List String) (st : St),
      ∃ ins, (flushKeys env st keys).1.evs = ins ++ st.evs ∧ insertOnly ins := by
  intro keys
  induction keys with
  | nil => intro st; exact ⟨[], rfl, by simp [insertOnly]⟩
  | cons kk rest ih =>
      intro st
      rcases hf : flushStream env st kk with ⟨st1, e⟩
      obtain ⟨ins0, hins0, hio0⟩ := flushStream_evs env st kk
      rw [hf] at hins0
      cases e with
      | none =>
          have hrec : flushKeys env st (kk :: rest) = flushKeys env st1 rest := by
            simp [flushKeys, runList, andThen, hf]
          rw [hrec]
          obtain ⟨ins1, hins1, hio1⟩ := ih st1
          refine ⟨ins1 ++ ins0, by rw [hins1, hins0]; simp, ?_⟩
          intro e he
          rcases List.mem_append.mp he with h | h
          · exact hio1 e h
          · exact hio0 e h
      | some e2 =>
          have hrec : flushKeys env st (kk :: rest) = (st1, some e2) := by
            simp [flushKeys, runList, andThen, hf]
          rw [hrec]
          exact ⟨ins0, hins0, hio0⟩

theorem drainAll_evs (env : Env) (threshold : Nat) (dumps : String → String)
    (ids : Nat → String) (times : Nat → Nat) (names : List String) :
    ∀ (msgs : List Msg) (st : St),
      ∃ ins, (drainAll env threshold dumps ids times names st msgs).1.evs =
        ins ++ st.evs ∧ insertOnly ins := by
  intro msgs
  induction msgs with
  | nil => intro st; exact ⟨[], rfl, by simp [insertOnly]⟩
  | cons m ms ih =>
      intro st
      rcases hd : drainStep env threshold dumps ids times names st m with ⟨st1, e⟩
      have hstep : ∃ ins0, st1.evs = ins0 ++ st.evs ∧ insertOnly ins0 := by
        cases m with
        | record s' d =>
            by_cases hs' : s' ∈ names
            · obtain ⟨ins0, hins0, hio0⟩ := queue_write_data_evs env threshold
                { st with k := st.k + 1 } s' (ids st.k) (times st.k) (dumps d)
              rw [drainStep_record_mem hs'] at hd
              rw [hd] at hins0
              exact ⟨ins0, hins0, hio0⟩
            · rw [drainStep_record_not_mem hs'] at hd
              cases hd
              exact ⟨[], rfl, by simp [insertOnly]⟩
        | state t =>
            have : drainStep env threshold dumps ids times names st (Msg.state t)
                = ({ st with outs := Msg.state t :: st.outs }, none) := rfl
            rw [this] at hd
            cases hd
            exact ⟨[], rfl, by simp [insertOnly]⟩
        | other =>
            have : drainStep env threshold dumps ids times names st Msg.other
                = (st, none) := rfl
            rw [this] at hd
            cases hd
            exact ⟨[], rfl, by simp [insertOnly]⟩
      obtain ⟨ins0, hins0, hio0⟩ := hstep
      cases e with
      | none =>
          have hrec : drainAll env threshold dumps ids times names st (m :: ms)
              = drainAll env threshold dumps ids times names st1 ms := by
            simp [drainAll_cons, andThen, hd]
          rw [hrec]
          obtain ⟨ins1, hins1, hio1⟩ := ih st1
          refine ⟨ins1 ++ ins0, by rw [hins1, hins0]; simp, ?_⟩
          intro e he
          rcases List.mem_append.mp he with h | h
          · exact hio1 e h
          · exact hio0 e h
      | some e2 =>
          have hrec : drainAll env threshold dumps ids times names st (m :: ms)
              = (st1, some e2) := by
            simp [drainAll_cons, andThen, hd]
          rw [hrec]
          exact ⟨ins0, hins0, hio0⟩

theorem flushAllBuffers_empties {env : Env} (hexec : env.execOk = true)
    (st : St) (s : String) :
    rowsOf (flushAllBuffers env st).1.buffers s = [] := by
  refine flushKeys_empties hexec (st.buffers.map Prod.fst) st ?_ s
  intro s2 hs2
  rcases hg : getRows st.buffers s2 with _ | rs
  · exact absurd (by simp [rowsOf, hg]) hs2
  · exact mem_keys_of_getRows_some hg

/-! ### Row-identifier lemmas -/

theorem newRowsFrom_map_rid (dumps : String → String) (ids : Nat → String)
    (times : Nat → Nat) (names : List String) (s : String) :
    ∀ (msgs : List Msg) (k : Nat),
      (newRowsFrom dumps ids times names s k msgs).map Row.rid =
        (rowIdxs names s k msgs).map ids := by
  intro msgs
  induction msgs with
  | nil => intro k; rfl
  | cons m ms ih =>
      intro k
      cases m with
      | record s' d =>
          by_cases hs' : s' ∈ names
          · by_cases hss : s' = s
            · have hs2 : s ∈ names := hss ▸ hs'
              simp [newRowsFrom, rowIdxs, hss, hs2, ih]
            · simp [newRowsFrom, rowIdxs, hs', hss, ih]
          · simp [newRowsFrom, rowIdxs, hs', ih]
      | state t => simp [newRowsFrom, rowIdxs, ih]
      | other => simp [newRowsFrom, rowIdxs, ih]

theorem rowIdxs_lb (names : List String) (s : String) :
    ∀ (msgs : List Msg) (k j : Nat), j ∈ rowIdxs names s k msgs → k ≤ j := by
  intro msgs
  induction msgs with
  | nil => intro k j h; simp [rowIdxs] at h
  | cons m ms ih =>
      intro k j h
      cases m with
      | record s' d =>
          by_cases hs' : s' ∈ names
          · by_cases hss : s' = s
            · have hs2 : s ∈ names := hss ▸ hs'
              rw [show rowIdxs names s k (Msg.record s' d :: ms)
                  = k :: rowIdxs names s (k + 1) ms from by
                simp [rowIdxs, hss, hs2]] at h
              rcases List.mem_cons.mp h with h | h
              · omega
              · have := ih (k + 1) j h
                omega
            · simp [rowIdxs, hs', hss] at h
              have := ih (k + 1) j h
              omega
          · simp [rowIdxs, hs'] at h
            exact ih k j h
      | state t =>
          simp [rowIdxs] at h
          exact ih k j h
      | other =>
          simp [rowIdxs] at h
          exact ih k j h

theorem rowIdxs_pairwise (names : List String) (s : String) :
    ∀ (msgs : List Msg) (k : Nat),
      (rowIdxs names s k msgs).Pairwise (· < ·) := by
  intro msgs
  induction msgs with
  | nil => intro k; simp [rowIdxs]
  | cons m ms ih =>
      intro k
      cases m with
      | record s' d =>
          by_cases hs' : s' ∈ names
          · by_cases hss : s' = s
            · have hs2 : s ∈ names := hss ▸ hs'
              rw [show rowIdxs names s k (Msg.record s' d :: ms)
                  = k :: rowIdxs names s (k + 1) ms from by
                simp [rowIdxs, hss, hs2]]
              refine List.Pairwise.cons ?_ (ih (k + 1))
              intro j hj
              have := rowIdxs_lb names s ms (k + 1) j hj
              omega
            · simpa [rowIdxs, hs', hss] using ih (k + 1)
          · simpa [rowIdxs, hs'] using ih k
      | state t => simpa [rowIdxs] using ih k
      | other => simpa [rowIdxs] using ih k

theorem newRowsFrom_rid_nodup {ids : Nat → String}
    (hinj : Function.Injective ids) (dumps : String → String)
    (times : Nat → Nat) (names : List String) (s : String) (msgs : List Msg)
    (k : Nat) :
    ((newRowsFrom dumps ids times names s k msgs).map Row.rid).Nodup := by
  rw [newRowsFrom_map_rid]
  refine List.Nodup.map hinj ?_
  have := rowIdxs_pairwise names s msgs k
  exact this.imp (fun h => Nat.ne_of_lt h)

/-! ### Whole-sync assembly lemmas -/

theorem drainAll_ok {env : Env} (hexec : env.execOk = true) (threshold : Nat)
    (dumps : String → String) (ids : Nat → String) (times : Nat → Nat)
    (names : List String) (msgs : List Msg) (st : St) :
    (drainAll env threshold dumps ids times names st msgs).2 = none :=
  runList_ok
    (fun st1 m => drainStep_ok hexec threshold dumps ids times names st1 m)
    msgs st

theorem flushAllBuffers_ok {env : Env} (hexec : env.execOk = true) (st : St) :
    (flushAllBuffers env st).2 = none :=
  flushKeys_ok hexec _ st

theorem flushAllBuffers_outs (env : Env) (st : St) :
    (flushAllBuffers env st).1.outs = st.outs :=
  flushKeys_outs env _ st

theorem flushAllBuffers_content (env : Env) (st : St) (s : String) :
    content (flushAllBuffers env st).1 s = content st s :=
  flushKeys_content env _ st s

theorem flushAllBuffers_evs (env : Env) (st : St) :
    ∃ ins, (flushAllBuffers env st).1.evs = ins ++ st.evs ∧ insertOnly ins :=
  flushKeys_evs env _ st

theorem prepareStream_fail {env : Env} (hfail : env.execOk = false) (st : St)
    (cs : ConfiguredStream) :
    prepareStream env st cs = (st, some PyErr.writeError) := by
  unfold prepareStream
  by_cases hm : cs.mode = SyncMode.overwrite <;>
    simp [hm, andThen, delete_table, create_raw_table, hfail]

theorem runSync_ok {env : Env} (hexec : env.execOk = true) (threshold : Nat)
    (dumps : String → String) (ids : Nat → String) (times : Nat → Nat)
    (catalog : Catalog) (msgs : List Msg) (tables0 : Tables) :
    ∃ st1 st2 st3,
      prepareAll env ⟨tables0, [], 0, [], []⟩ catalog = (st1, none) ∧
      drainAll env threshold dumps ids times
        (catalog.map ConfiguredStream.name) st1 msgs = (st2, none) ∧
      flushAllBuffers env st2 = (st3, none) ∧
      runSync env threshold dumps ids times catalog msgs tables0 = (st3, none) := by
  rcases hp : prepareAll env ⟨tables0, [], 0, [], []⟩ catalog with ⟨st1, e1⟩
  have he1 : e1 = none := by
    have := prepareAll_ok hexec catalog (⟨tables0, [], 0, [], []⟩ : St)
    rw [hp] at this
    exact this
  subst he1
  rcases hd : drainAll env threshold dumps ids times
      (catalog.map ConfiguredStream.name) st1 msgs with ⟨st2, e2⟩
  have he2 : e2 = none := by
    have := drainAll_ok hexec threshold dumps ids times
      (catalog.map ConfiguredStream.name) msgs st1
    rw [hd] at this
    exact this
  subst he2
  rcases hf : flushAllBuffers env st2 with ⟨st3, e3⟩
  have he3 : e3 = none := by
    have := flushAllBuffers_ok hexec st2
    rw [hf] at this
    exact this
  subst he3
  refine ⟨st1, st2, st3, rfl, hd, hf, ?_⟩
  simp [runSync, andThen, hp, hd, hf]

theorem write_run {env : Env} {cfg : Config} {sess : Session}
    (hconn : establish_connection env cfg = Except.ok (some sess))
    (threshold : Nat) (dumps : String → String) (ids : Nat → String)
    (times : Nat → Nat) (catalog : Catalog) (msgs : List Msg)
    (tables0 : Tables) :
    write env threshold dumps ids times cfg catalog msgs tables0 =
      finishRun (runSync env threshold dumps ids times catalog msgs tables0).1
        (runSync env threshold dumps ids times catalog msgs tables0).2 := by
  unfold write
  rw [hconn]

/-! ### Claim theorems -/

/-- Claim C1 (code bug): with flush threshold 2, catalog `[a (append)]`
and input `[Record(a,"x"), StateMarker 0]`, at the moment the marker is
reached the record for `a` is still sitting in the in-memory buffer and
the raw table `a` holds no rows — yet the very next drain step forwards
the marker downstream (and the full `write` run yields it). The records
preceding the marker are therefore not committed before the marker is
forwarded, contradicting the claim and `write`'s own docstring, which
promises that every record preceding an output state message has been
persisted. -/
theorem marker_forwarded_before_commit :
    rowsOf stAfterRecordA.tables "a" = [] ∧
    rowsOf stAfterRecordA.buffers "a" = [⟨idsW 0, timesW 0, "x"⟩] ∧
    (drainStep envOk 2 id idsW timesW ["a"] stAfterRecordA (Msg.state 0)).1.outs
      = [Msg.state 0] ∧
    (drainStep envOk 2 id idsW timesW ["a"] stAfterRecordA (Msg.state 0)).2 = none ∧
    (write envOk 2 id idsW timesW cfgNone catA
        [Msg.record "a" "x", Msg.state 0] []).outs = [Msg.state 0] := by
  refine ⟨by decide, by decide, by decide, by decide, by decide⟩

/-- Claim C7, counterexample: with the host unreachable (the driver's
connect raises), `establish_connection` does not fail with
`ConnectionError` — the catch-all `except` swallows the driver error and
the function returns normally with `None`. -/
theorem no_connection_error_raised_counterexample :
    establish_connection envNoConnect cfgNone = Except.ok none := by
  rfl

/-- Claim C7, amended: `establish_connection` never raises; it returns
normally for every environment and configuration, and the result carries
a live session exactly when the driver connect succeeds and the
configuration selects a recognized variant (`auth_type` key present and
either empty or case-insensitively equal to "LDAP"); in every other
situation it returns `None`. -/
theorem establish_connection_never_raises (env : Env) (cfg : Config) :
    (∃ r, establish_connection env cfg = Except.ok r) ∧
    ((∃ s, establish_connection env cfg = Except.ok (some s)) ↔
      (env.connectOk = true ∧ cfg.authPresent = true ∧
        (cfg.auth_type = "" ∨ pyUpper cfg.auth_type = "LDAP"))) := by
  unfold establish_connection
  rcases env with ⟨co, eo⟩
  by_cases hp : cfg.authPresent = false <;>
    by_cases he : cfg.auth_type = "" <;>
      by_cases hl : pyUpper cfg.auth_type = "LDAP" <;>
        cases co <;>
          simp_all

/-- Claim C8, counterexample: `auth_type = "KERBEROS"` (an unrecognized
value) does not fail with `ConfigurationError` — both connect branches
are skipped and `establish_connection` returns normally with `None`. -/
theorem unknown_auth_type_no_error_counterexample :
    establish_connection envOk cfgKerberos = Except.ok none := by
  rfl

/-- Claim C8, amended: with the `auth_type` key present, an empty value
selects the host/port-only ("none") connect variant, a value equal to
"LDAP" up to case selects the credentialed variant (user, password,
transport, TLS, HTTP path), and any other value makes
`establish_connection` return `None` without attempting a connection —
no `ConfigurationError` is raised. -/
theorem auth_variant_selection (env : Env) (cfg : Config)
    (hp : cfg.authPresent = true) :
    (cfg.auth_type = "" →
      establish_connection env cfg =
        Except.ok (if env.connectOk then
          some (Session.plain cfg.host cfg.port) else none)) ∧
    (pyUpper cfg.auth_type = "LDAP" →
      establish_connection env cfg =
        Except.ok (if env.connectOk then
          some (Session.ldap cfg.host cfg.port cfg.user cfg.password
            cfg.use_http_transport cfg.use_ssl cfg.http_path) else none)) ∧
    (cfg.auth_type ≠ "" → pyUpper cfg.auth_type ≠ "LDAP" →
      establish_connection env cfg = Except.ok none) := by
  unfold establish_connection
  refine ⟨fun he => ?_, fun hl => ?_, fun he hl => ?_⟩
  · simp [hp, he]
  · have he : cfg.auth_type ≠ "" := by
      intro h
      rw [h] at hl
      exact absurd hl (by decide)
    simp [hp, he, hl]
  · simp [hp, he, hl]

/-- Claim C8, witness for the amended theorem at a concrete LDAP
configuration. -/
theorem auth_variant_selection_witness :
    cfgLdap.authPresent = true ∧
    ((cfgLdap.auth_type = "" →
      establish_connection envOk cfgLdap =
        Except.ok (if envOk.connectOk then
          some (Session.plain cfgLdap.host cfgLdap.port) else none)) ∧
    (pyUpper cfgLdap.auth_type = "LDAP" →
      establish_connection envOk cfgLdap =
        Except.ok (if envOk.connectOk then
          some (Session.ldap cfgLdap.host cfgLdap.port cfgLdap.user
            cfgLdap.password cfgLdap.use_http_transport cfgLdap.use_ssl
            cfgLdap.http_path) else none)) ∧
    (cfgLdap.auth_type ≠ "" → pyUpper cfgLdap.auth_type ≠ "LDAP" →
      establish_connection envOk cfgLdap = Except.ok none)) :=
  ⟨by decide, auth_variant_selection envOk cfgLdap (by decide)⟩

/-- Claim C10: whenever the driver raises during connection
establishment (unreachable host / rejected authentication) or
`auth_type` is an unrecognized non-empty value, `establish_connection`
returns `None`, and `write` then fails while entering
`with None as connection`: nothing is yielded, no event (no DDL, no
insert, no release) occurs, the warehouse is untouched — the result does
not depend on the input messages at all. -/
theorem write_aborts_on_none_connection (env : Env) (cfg : Config)
    (threshold : Nat) (dumps : String → String) (ids : Nat → String)
    (times : Nat → Nat) (catalog : Catalog) (msgs : List Msg)
    (tables0 : Tables)
    (h : env.connectOk = false ∨
      (cfg.authPresent = true ∧ cfg.auth_type ≠ "" ∧
        pyUpper cfg.auth_type ≠ "LDAP")) :
    establish_connection env cfg = Except.ok none ∧
    write env threshold dumps ids times cfg catalog msgs tables0 =
      ⟨[], [], tables0, [], some PyErr.noneContext⟩ := by
  have hnone : establish_connection env cfg = Except.ok none := by
    unfold establish_connection
    rcases h with h | ⟨hp, he, hl⟩
    · by_cases hp : cfg.authPresent = false <;>
        by_cases he : cfg.auth_type = "" <;>
          by_cases hl : pyUpper cfg.auth_type = "LDAP" <;>
            simp_all
    · simp [hp, he, hl]
  refine ⟨hnone, ?_⟩
  unfold write
  rw [hnone]

/-- Claim C2: with a live connection and healthy execution, `write`
yields exactly the state-marker subsequence of its input — each marker
the very same message value, in original relative order — and nothing
else is ever yielded. -/
theorem write_outputs_are_exactly_state_markers (env : Env) (threshold : Nat)
    (dumps : String → String) (ids : Nat → String) (times : Nat → Nat)
    (cfg : Config) (catalog : Catalog) (msgs : List Msg) (tables0 : Tables)
    (sess : Session)
    (hconn : establish_connection env cfg = Except.ok (some sess))
    (hexec : env.execOk = true) :
    (write env threshold dumps ids times cfg catalog msgs tables0).outs =
      msgs.filter Msg.isState := by
  rw [write_run hconn]
  obtain ⟨st1, st2, st3, hp, hd, hf, hrun⟩ :=
    runSync_ok hexec threshold dumps ids times catalog msgs tables0
  rw [hrun]
  have h1 : st1.outs = [] := by
    have := prepareAll_outs env catalog ⟨tables0, [], 0, [], []⟩
    rw [hp] at this
    exact this
  have h2 : st2.outs = (msgs.filter Msg.isState).reverse ++ st1.outs := by
    have := drainAll_outs hexec threshold dumps ids times
      (catalog.map ConfiguredStream.name) msgs st1
    rw [hd] at this
    exact this
  have h3 : st3.outs = st2.outs := by
    have := flushAllBuffers_outs env st2
    rw [hf] at this
    exact this
  simp [finishRun, h3, h2, h1]

/-- Claim C2, witness at a concrete catalog and a mixed input. -/
theorem write_outputs_are_exactly_state_markers_witness :
    establish_connection envOk cfgNone =
      Except.ok (some (Session.plain "localhost" 10000)) ∧
    envOk.execOk = true ∧
    (write envOk 2 id idsW timesW cfgNone catAB msgsW tablesW).outs =
      msgsW.filter Msg.isState :=
  ⟨rfl, rfl, write_outputs_are_exactly_state_markers envOk 2 id idsW timesW
    cfgNone catAB msgsW tablesW (Session.plain "localhost" 10000) rfl rfl⟩

/-- Claim C3: a record whose stream name is absent from the configured
catalog is dropped during Draining: after any run of `write` — any
environment, including failing ones — that stream has no buffer binding
at all, and its raw-table binding (existence and rows alike) is exactly
what the pre-existing warehouse held. -/
theorem unconfigured_stream_records_dropped (env : Env) (threshold : Nat)
    (dumps : String → String) (ids : Nat → String) (times : Nat → Nat)
    (cfg : Config) (catalog : Catalog) (msgs : List Msg) (tables0 : Tables)
    (s : String) (hs : s ∉ catalog.map ConfiguredStream.name) :
    getRows (write env threshold dumps ids times cfg catalog msgs
        tables0).buffers s = none ∧
    getRows (write env threshold dumps ids times cfg catalog msgs
        tables0).tables s = getRows tables0 s := by
  have hne : ∀ cs ∈ catalog, cs.name ≠ s := by
    intro cs hcs heq
    exact hs (heq ▸ List.mem_map_of_mem ConfiguredStream.name hcs)
  have hsync : getRows (runSync env threshold dumps ids times catalog msgs
      tables0).1.buffers s = none ∧
      getRows (runSync env threshold dumps ids times catalog msgs
        tables0).1.tables s = getRows tables0 s := by
    rcases hp : prepareAll env ⟨tables0, [], 0, [], []⟩ catalog with ⟨st1, e1⟩
    have P1 : getRows st1.buffers s = none ∧
        getRows st1.tables s = getRows tables0 s := by
      have hb := prepareAll_buffers env catalog ⟨tables0, [], 0, [], []⟩
      have ht := prepareAll_getRows_ne env catalog ⟨tables0, [], 0, [], []⟩ hne
      rw [hp] at hb ht
      exact ⟨by rw [hb]; rfl, ht⟩
    cases e1 with
    | some e1 =>
        have hrs : runSync env threshold dumps ids times catalog msgs tables0
            = (st1, some e1) := by
          simp [runSync, andThen, hp]
        rw [hrs]
        exact P1
    | none =>
        rcases hd : drainAll env threshold dumps ids times
            (catalog.map ConfiguredStream.name) st1 msgs with ⟨st2, e2⟩
        have P2 : getRows st2.buffers s = none ∧
            getRows st2.tables s = getRows tables0 s := by
          have := drainAll_getRows_pres hs env threshold dumps ids times msgs st1
          rw [hd] at this
          exact ⟨this.1.trans P1.1, this.2.trans P1.2⟩
        cases e2 with
        | some e2 =>
            have hrs : runSync env threshold dumps ids times catalog msgs
                tables0 = (st2, some e2) := by
              simp [runSync, andThen, hp, hd]
            rw [hrs]
            exact P2
        | none =>
            rcases hf : flushAllBuffers env st2 with ⟨st3, e3⟩
            have P3 : getRows st3.buffers s = none ∧
                getRows st3.tables s = getRows tables0 s := by
              have := flushKeys_getRows_pres env (st2.buffers.map Prod.fst)
                st2 P2.1
              have hfb : flushAllBuffers env st2
                  = flushKeys env st2 (st2.buffers.map Prod.fst) := rfl
              rw [← hfb, hf] at this
              exact ⟨this.1, this.2.trans P2.2⟩
            have hrs : runSync env threshold dumps ids times catalog msgs
                tables0 = (st3, e3) := by
              simp [runSync, andThen, hp, hd, hf]
            rw [hrs]
            exact P3
  unfold write
  rcases hc : establish_connection env cfg with e | os
  · exact ⟨rfl, rfl⟩
  · rcases os with _ | sess
    · exact ⟨rfl, rfl⟩
    · rcases hr : runSync env threshold dumps ids times catalog msgs tables0
          with ⟨st3, e3⟩
      rw [hr] at hsync
      exact hsync

/-- Claim C3, witness for stream `c`, which appears in the sample input
but not in the catalog. -/
theorem unconfigured_stream_records_dropped_witness :
    "c" ∉ catAB.map ConfiguredStream.name ∧
    (getRows (write envOk 2 id idsW timesW cfgNone catAB msgsW
        tablesW).buffers "c" = none ∧
      getRows (write envOk 2 id idsW timesW cfgNone catAB msgsW
        tablesW).tables "c" = getRows tablesW "c") :=
  ⟨by decide, unconfigured_stream_records_dropped envOk 2 id idsW timesW
    cfgNone catAB msgsW tablesW "c" (by decide)⟩

/-- Claim C4: with a live connection and healthy execution, the event
trace of `write` begins with exactly the Preparing DDL — for each
catalog stream in order, a drop if and only if its sync mode is
overwrite, then the create — and everything after that prefix is only
bulk-insert events and the final release: the per-stream setup fully
precedes every record flush, hence every consumed input message effect. -/
theorem prepare_precedes_draining (env : Env) (threshold : Nat)
    (dumps : String → String) (ids : Nat → String) (times : Nat → Nat)
    (cfg : Config) (catalog : Catalog) (msgs : List Msg) (tables0 : Tables)
    (sess : Session)
    (hconn : establish_connection env cfg = Except.ok (some sess))
    (hexec : env.execOk = true) :
    ∃ rest,
      (write env threshold dumps ids times cfg catalog msgs tables0).evs =
        prepEvs catalog ++ rest ∧
      ∀ e ∈ rest, (∃ nm n, e = Ev.insertRows nm n) ∨ e = Ev.release := by
  rw [write_run hconn]
  obtain ⟨st1, st2, st3, hp, hd, hf, hrun⟩ :=
    runSync_ok hexec threshold dumps ids times catalog msgs tables0
  rw [hrun]
  have h1 : st1.evs = (prepEvs catalog).reverse := by
    have := prepareAll_evs hexec catalog ⟨tables0, [], 0, [], []⟩
    rw [hp] at this
    simpa using this
  obtain ⟨ins1, hins1, hio1⟩ : ∃ ins, st2.evs = ins ++ st1.evs ∧
      insertOnly ins := by
    have := drainAll_evs env threshold dumps ids times
      (catalog.map ConfiguredStream.name) msgs st1
    rw [hd] at this
    exact this
  obtain ⟨ins2, hins2, hio2⟩ : ∃ ins, st3.evs = ins ++ st2.evs ∧
      insertOnly ins := by
    have := flushAllBuffers_evs env st2
    rw [hf] at this
    exact this
  refine ⟨ins1.reverse ++ (ins2.reverse ++ [Ev.release]), ?_, ?_⟩
  · simp [finishRun, hins2, hins1, h1]
  · intro e he
    rcases List.mem_append.mp he with h | h
    · exact Or.inl (hio1 e (List.mem_reverse.mp h))
    · rcases List.mem_append.mp h with h2 | h2
      · exact Or.inl (hio2 e (List.mem_reverse.mp h2))
      · exact Or.inr (List.mem_singleton.mp h2)

/-- Claim C4, witness at a concrete two-stream catalog mixing append and
overwrite modes. -/
theorem prepare_precedes_draining_witness :
    establish_connection envOk cfgNone =
      Except.ok (some (Session.plain "localhost" 10000)) ∧
    envOk.execOk = true ∧
    (∃ rest,
      (write envOk 2 id idsW timesW cfgNone catAB msgsW tablesW).evs =
        prepEvs catAB ++ rest ∧
      ∀ e ∈ rest, (∃ nm n, e = Ev.insertRows nm n) ∨ e = Ev.release) :=
  ⟨rfl, rfl, prepare_precedes_draining envOk 2 id idsW timesW cfgNone catAB
    msgsW tablesW (Session.plain "localhost" 10000) rfl rfl⟩

/-- Claim C5: with a live connection and healthy execution, `write`
ends with the unconditional no-argument flush, so after the run every
stream's buffer is drained — for every input, records or no records,
state markers or none. -/
theorem final_flush_drains_buffers (env : Env) (threshold : Nat)
    (dumps : String → String) (ids : Nat → String) (times : Nat → Nat)
    (cfg : Config) (catalog : Catalog) (msgs : List Msg) (tables0 : Tables)
    (sess : Session)
    (hconn : establish_connection env cfg = Except.ok (some sess))
    (hexec : env.execOk = true) :
    ∀ s, rowsOf (write env threshold dumps ids times cfg catalog msgs
        tables0).buffers s = [] := by
  intro s
  rw [write_run hconn]
  obtain ⟨st1, st2, st3, hp, hd, hf, hrun⟩ :=
    runSync_ok hexec threshold dumps ids times catalog msgs tables0
  rw [hrun]
  have := flushAllBuffers_empties hexec st2 s
  rw [hf] at this
  simpa [finishRun] using this

/-- Claim C5, witness at an input with a below-threshold leftover
record. -/
theorem final_flush_drains_buffers_witness :
    establish_connection envOk cfgNone =
      Except.ok (some (Session.plain "localhost" 10000)) ∧
    envOk.execOk = true ∧
    ∀ s, rowsOf (write envOk 2 id idsW timesW cfgNone catAB msgsW
        tablesW).buffers s = [] :=
  ⟨rfl, rfl, final_flush_drains_buffers envOk 2 id idsW timesW cfgNone catAB
    msgsW tablesW (Session.plain "localhost" 10000) rfl rfl⟩

/-- Claim C6: with a live connection, healthy execution and distinct
catalog stream names, each configured stream's raw table ends the sync
holding its prepared rows (empty for overwrite mode, the pre-existing
rows otherwise) followed by exactly one row per configured record, in
enqueue order; each row carries the id and timestamp drawn from the
connector's supplies at the record's ingestion index — functions
independent of the message contents, modelling `uuid4()` and
`datetime.now()` — and the payload is the serialization of the record's
own data, otherwise untouched. When the id supply never repeats (as for
UUID4), the generated row ids are pairwise distinct. -/
theorem queued_rows_carry_generated_id_time_payload (env : Env)
    (threshold : Nat) (dumps : String → String) (ids : Nat → String)
    (times : Nat → Nat) (cfg : Config) (catalog : Catalog) (msgs : List Msg)
    (tables0 : Tables) (sess : Session)
    (hconn : establish_connection env cfg = Except.ok (some sess))
    (hexec : env.execOk = true)
    (hnd : (catalog.map ConfiguredStream.name).Nodup) :
    ∀ cs ∈ catalog,
      rowsOf (write env threshold dumps ids times cfg catalog msgs
          tables0).tables cs.name =
        (if cs.mode = SyncMode.overwrite then [] else rowsOf tables0 cs.name)
          ++ newRowsFrom dumps ids times (catalog.map ConfiguredStream.name)
              cs.name 0 msgs ∧
      (Function.Injective ids →
        ((newRowsFrom dumps ids times (catalog.map ConfiguredStream.name)
            cs.name 0 msgs).map Row.rid).Nodup) := by
  intro cs hcs
  refine ⟨?_, fun hinj =>
    newRowsFrom_rid_nodup hinj dumps times _ cs.name msgs 0⟩
  rw [write_run hconn]
  obtain ⟨st1, st2, st3, hp, hd, hf, hrun⟩ :=
    runSync_ok hexec threshold dumps ids times catalog msgs tables0
  rw [hrun]
  have hk1 : st1.k = 0 := by
    have := prepareAll_k env catalog ⟨tables0, [], 0, [], []⟩
    rw [hp] at this
    exact this
  have hb1 : st1.buffers = [] := by
    have := prepareAll_buffers env catalog ⟨tables0, [], 0, [], []⟩
    rw [hp] at this
    exact this
  have hrows1 : rowsOf st1.tables cs.name =
      (if cs.mode = SyncMode.overwrite then [] else rowsOf tables0 cs.name) := by
    have := prepareAll_rows hexec catalog ⟨tables0, [], 0, [], []⟩ hnd cs hcs
    rw [hp] at this
    exact this
  have hc1 : content st1 cs.name =
      (if cs.mode = SyncMode.overwrite then [] else rowsOf tables0 cs.name) := by
    unfold content
    rw [hrows1, hb1]
    simp [rowsOf, getRows]
  have hc2 : content st2 cs.name = content st1 cs.name ++
      newRowsFrom dumps ids times (catalog.map ConfiguredStream.name)
        cs.name 0 msgs := by
    have := (drainAll_content hexec threshold dumps ids times
      (catalog.map ConfiguredStream.name) msgs st1).2 cs.name
    rw [hd, hk1] at this
    exact this
  have hc3 : content st3 cs.name = content st2 cs.name := by
    have := flushAllBuffers_content env st2 cs.name
    rw [hf] at this
    exact this
  have hbuf3 : rowsOf st3.buffers cs.name = [] := by
    have := flushAllBuffers_empties hexec st2 cs.name
    rw [hf] at this
    exact this
  have htab3 : rowsOf st3.tables cs.name = content st3 cs.name := by
    simp [content, hbuf3]
  have : rowsOf (finishRun st3 none).tables cs.name
      = rowsOf st3.tables cs.name := rfl
  rw [this, htab3, hc3, hc2, hc1]

/-- Claim C6, witness at a concrete run: append stream `a` keeps its old
row, overwrite stream `b` starts empty, and both gain their configured
records' rows. -/
theorem queued_rows_carry_generated_id_time_payload_witness :
    establish_connection envOk cfgNone =
      Except.ok (some (Session.plain "localhost" 10000)) ∧
    envOk.execOk = true ∧
    (catAB.map ConfiguredStream.name).Nodup ∧
    ∀ cs ∈ catAB,
      rowsOf (write envOk 2 id idsW timesW cfgNone catAB msgsW
          tablesW).tables cs.name =
        (if cs.mode = SyncMode.overwrite then [] else rowsOf tablesW cs.name)
          ++ newRowsFrom id idsW timesW (catAB.map ConfiguredStream.name)
              cs.name 0 msgsW ∧
      (Function.Injective idsW →
        ((newRowsFrom id idsW timesW (catAB.map ConfiguredStream.name)
            cs.name 0 msgsW).map Row.rid).Nodup) :=
  ⟨rfl, rfl, by decide, queued_rows_carry_generated_id_time_payload envOk 2
    id idsW timesW cfgNone catAB msgsW tablesW
    (Session.plain "localhost" 10000) rfl rfl (by decide)⟩

/-- Claim C9: the `check` operation never propagates an error — for
every environment and configuration it returns a status, SUCCEEDED
exactly when a connection is obtained and the liveness query (and the
writer construction) execute, and a FAILED status carrying a message
string otherwise. By contrast, during an actual sync with a live
connection, an execution failure is not caught by `write`: the run
aborts with the error recorded, and the session release is the last
event — the `with` block releases the Session before the failure
reaches the caller. -/
theorem check_catches_errors_write_propagates (env : Env) (threshold : Nat)
    (dumps : String → String) (ids : Nat → String) (times : Nat → Nat)
    (cfg : Config) (catalog : Catalog) (msgs : List Msg) (tables0 : Tables)
    (sess : Session)
    (hconn : establish_connection env cfg = Except.ok (some sess))
    (hfail : env.execOk = false) (hcat : catalog ≠ []) :
    (∀ (env2 : Env) (cfg2 : Config),
      ((check env2 cfg2 = CheckStatus.succeeded) ↔
        ((∃ s2, establish_connection env2 cfg2 = Except.ok (some s2)) ∧
          env2.execOk = true)) ∧
      (check env2 cfg2 = CheckStatus.succeeded ∨
        ∃ m, check env2 cfg2 = CheckStatus.failed m)) ∧
    (write env threshold dumps ids times cfg catalog msgs tables0).err =
      some PyErr.writeError ∧
    ∃ es, (write env threshold dumps ids times cfg catalog msgs
      tables0).evs = es ++ [Ev.release] := by
  have hmain : write env threshold dumps ids times cfg catalog msgs tables0 =
      finishRun ⟨tables0, [], 0, [], []⟩ (some PyErr.writeError) := by
    rcases catalog with _ | ⟨c, rest⟩
    · exact absurd rfl hcat
    · have hprep : prepareAll env ⟨tables0, [], 0, [], []⟩ (c :: rest) =
          ((⟨tables0, [], 0, [], []⟩ : St), some PyErr.writeError) := by
        simp [prepareAll, runList, andThen, prepareStream_fail hfail]
      have hrs : runSync env threshold dumps ids times (c :: rest) msgs
          tables0 = ((⟨tables0, [], 0, [], []⟩ : St), some PyErr.writeError) := by
        simp [runSync, andThen, hprep]
      rw [write_run hconn, hrs]
  refine ⟨?_, by simp [hmain, finishRun], ⟨[], by simp [hmain, finishRun]⟩⟩
  intro env2 cfg2
  rcases hc : establish_connection env2 cfg2 with e | os
  · have hch : check env2 cfg2 =
        CheckStatus.failed "An exception occurred: connection error" := by
      simp [check, hc]
    constructor
    · rw [hch]
      simp [hc]
    · exact Or.inr ⟨_, hch⟩
  · rcases os with _ | s2
    · have hch : check env2 cfg2 = CheckStatus.failed
          "An exception occurred: NoneType is not a context manager" := by
        simp [check, hc]
      constructor
      · rw [hch]
        simp [hc]
      · exact Or.inr ⟨_, hch⟩
    · by_cases he2 : env2.execOk = true
      · have hch : check env2 cfg2 = CheckStatus.succeeded := by
          simp [check, hc, he2]
        constructor
        · rw [hch]
          simp [hc, he2]
        · exact Or.inl hch
      · have hch : check env2 cfg2 = CheckStatus.failed
            "An exception occurred: query execution error" := by
          simp [check, hc, Bool.not_eq_true] at he2 ⊢
          simp [he2]
        constructor
        · rw [hch]
          simp [he2]
        · exact Or.inr ⟨_, hch⟩

/-- Claim C9, witness: an environment whose SQL execution fails — the
check reports FAILED, and a sync on a one-stream catalog aborts with the
error after releasing the session. -/
theorem check_catches_errors_write_propagates_witness :
    establish_connection envNoExec cfgNone =
      Except.ok (some (Session.plain "localhost" 10000)) ∧
    envNoExec.execOk = false ∧ catA ≠ [] ∧
    ((∀ (env2 : Env) (cfg2 : Config),
      ((check env2 cfg2 = CheckStatus.succeeded) ↔
        ((∃ s2, establish_connection env2 cfg2 = Except.ok (some s2)) ∧
          env2.execOk = true)) ∧
      (check env2 cfg2 = CheckStatus.succeeded ∨
        ∃ m, check env2 cfg2 = CheckStatus.failed m)) ∧
    (write envNoExec 2 id idsW timesW cfgNone catA [Msg.state 0] []).err =
      some PyErr.writeError ∧
    ∃ es, (write envNoExec 2 id idsW timesW cfgNone catA
      [Msg.state 0] []).evs = es ++ [Ev.release]) :=
  ⟨rfl, rfl, by decide, check_catches_errors_write_propagates envNoExec 2
    id idsW timesW cfgNone catA [Msg.state 0] []
    (Session.plain "localhost" 10000) rfl rfl (by decide)⟩

/-- Claim C10, witness at a concrete unreachable-host configuration. -/
theorem write_aborts_on_none_connection_witness :
    (envNoConnect.connectOk = false ∨
      (cfgNone.authPresent = true ∧ cfgNone.auth_type ≠ "" ∧
        pyUpper cfgNone.auth_type ≠ "LDAP")) ∧
    (establish_connection envNoConnect cfgNone = Except.ok none ∧
      write envNoConnect 2 id idsW timesW cfgNone catA [Msg.state 0] [] =
        ⟨[], [], [], [], some PyErr.noneContext⟩) :=
  ⟨Or.inl (by decide),
    write_aborts_on_none_connection envNoConnect cfgNone 2 id idsW timesW
      catA [Msg.state 0] [] (Or.inl (by decide))⟩

end DestinationHive
